import Mathlib

/-!
Verification of the RVGP geometry core (src/RVGP/geometry.py) against its
natural-language specification.

The Python functions are shallowly embedded in Lean.  Matrix entries are
modelled by exact rationals.  Behaviour of external libraries (numpy, scipy,
scikit-learn, networkx) that the source calls into is modelled by its
documented contract:

* networkx laplacian_matrix(G) returns D - A where D is the diagonal matrix
  of the row sums of the weighted adjacency matrix A.
* networkx G.degree[i] is the unweighted degree: the number of incident
  edges, with a self loop counted twice.
* numpy float division by zero yields a non-finite value (inf, or nan for
  0/0); we track non-finiteness with Option.
* dividing a scipy sparse matrix by a 1-d numpy array densifies and applies
  numpy broadcasting over the LAST axis: entry (i,j) is divided by deg[j].
* scipy.sparse.linalg.eigsh(A, k) requires 0 < k < order(A) and raises
  ValueError otherwise; on success it returns orthonormal eigenvector
  columns.
* numpy has no attribute mm (torch does), so np.mm raises AttributeError.
* len(sparse_matrix) raises TypeError; tuples have no todense or shape
  attribute (AttributeError).
* numpy argmax returns the first index attaining the maximum; max of an
  empty array raises ValueError.
-/

set_option maxHeartbeats 1000000

namespace RVGP

/-- Python exception kinds that the embedded functions can raise. -/
inductive PyErr where
  | valueError
  | indexError
  | attributeError
  | assertionError
  | notImplementedError
  | typeError
  | nameError
deriving DecidableEq, Repr

/-! ## Graphs and the scalar Laplacian (compute_laplacian) -/

/-- A weighted undirected graph on nodes 0..n-1, as networkx stores it:
a symmetric weight function; the edge (i,j) exists iff `w i j ≠ 0`. -/
structure Graph where
  n : Nat
  w : Nat → Nat → ℚ

/-- Row sum of the weighted adjacency matrix (the diagonal of D used by
networkx laplacian_matrix). -/
def Graph.adjRowSum (G : Graph) (i : Nat) : ℚ :=
  ∑ j in Finset.range G.n, G.w i j

/-- Embedding of `compute_laplacian(G)` with no normalization:
networkx laplacian_matrix, i.e. D - A with D the diagonal of row sums. -/
def compute_laplacian (G : Graph) (i j : Nat) : ℚ :=
  (if i = j then G.adjRowSum i else 0) - G.w i j

/-- networkx unweighted degree `G.degree[i]`: number of incident edges,
self loops counted twice. -/
def Graph.degree (G : Graph) (i : Nat) : Nat :=
  ((Finset.range G.n).filter (fun j => j ≠ i ∧ G.w i j ≠ 0)).card
    + 2 * (if G.w i i ≠ 0 then 1 else 0)

/-- Float true division, tracking non-finite results: dividing by zero in
numpy yields inf or nan (0/0), modelled by `none`. -/
def fdiv (a b : ℚ) : Option ℚ :=
  if b = 0 then none else some (a / b)

/-- Embedding of the "rw" branch of `compute_laplacian`:
`laplacian /= deg` densifies and numpy-broadcasts the length-n degree array
over the LAST axis, so entry (i,j) is divided by the degree of node j. -/
def compute_laplacian_rw (G : Graph) (i j : Nat) : Option ℚ :=
  fdiv (compute_laplacian G i j) (G.degree j)

/-- Row i of the rw-normalized scalar Laplacian, as a list of entries. -/
def rwRow (G : Graph) (i : Nat) : List (Option ℚ) :=
  (List.range G.n).map (compute_laplacian_rw G i)

/-- Sum of a list of float values where any non-finite summand poisons the
sum (nan propagates through addition). -/
def optSum : List (Option ℚ) → Option ℚ
  | [] => some 0
  | a :: l => do pure ((← a) + (← optSum l))

/-! ## Connection Laplacian (compute_connection_laplacian) -/

/-- Entry of `sparse.kron(L, ones(d, d))`: the scalar entry L(i,j) is
broadcast across every cell of the corresponding d×d block. -/
def kronOnes (L : Nat → Nat → ℚ) (d : Nat) (a b : Nat) : ℚ :=
  L (a / d) (b / d)

/-- Embedding of `compute_connection_laplacian(G, R)` with no
normalization: the Kronecker expansion of the scalar Laplacian multiplied
elementwise (Hadamard) with the transport matrix R.  R is the flat
(n·d)×(n·d) matrix, d the block dimension. -/
def compute_connection_laplacian (G : Graph) (d : Nat) (R : Nat → Nat → ℚ)
    (a b : Nat) : ℚ :=
  kronOnes (compute_laplacian G) d a b * R a b

/-- Guarded inverse degree used by the "rw" branch of
`compute_connection_laplacian`: `deg_inv = 1.0/deg` with infinite entries
replaced by zero. -/
def degInvGuard (G : Graph) (i : Nat) : ℚ :=
  if G.degree i = 0 then 0 else 1 / (G.degree i : ℚ)

/-- Embedding of the "rw" branch of `compute_connection_laplacian`:
left multiplication by diag(deg_inv repeated d times), i.e. block-row
scaling by the guarded inverse degree of node a/d. -/
def compute_connection_laplacian_rw (G : Graph) (d : Nat) (R : Nat → Nat → ℚ)
    (a b : Nat) : ℚ :=
  degInvGuard G (a / d) * compute_connection_laplacian G d R a b

/-- Block (i,j) of the connection Laplacian is nonzero: some cell (a,b) of
the d×d block at block position (i,j) is nonzero. -/
def blockNonzero (G : Graph) (d : Nat) (R : Nat → Nat → ℚ) (i j : Nat) : Prop :=
  ∃ a ∈ Finset.range d, ∃ b ∈ Finset.range d,
    compute_connection_laplacian G d R (i * d + a) (j * d + b) ≠ 0

instance (G : Graph) (d : Nat) (R : Nat → Nat → ℚ) (i j : Nat) :
    Decidable (blockNonzero G d R i j) := by
  unfold blockNonzero; infer_instance

/-- Node i has at least one incident edge to a different node. -/
def Graph.hasNeighbor (G : Graph) (i : Nat) : Prop :=
  ∃ j ∈ Finset.range G.n, j ≠ i ∧ G.w i j ≠ 0

instance (G : Graph) (i : Nat) : Decidable (G.hasNeighbor i) := by
  unfold Graph.hasNeighbor; infer_instance

/-! ## Spectrum (compute_spectrum) -/

/-- The eigenpair count actually requested by `compute_spectrum` for a
Laplacian of order m: a missing argument defaults to m, and any request
`k ≥ m` is clipped to m. -/
def compute_spectrum_k (m : Nat) (n_eigenpairs : Option Nat) : Nat :=
  let k := n_eigenpairs.getD m
  if m ≤ k then m else k

/-- Whether `compute_spectrum` prints its reduction warning. -/
def compute_spectrum_warns (m : Nat) (n_eigenpairs : Option Nat) : Bool :=
  m ≤ n_eigenpairs.getD m

/-- Domain behaviour of scipy.sparse.linalg.eigsh on the sparse (csr)
Laplacians this library produces: for 0 < k < order, ARPACK runs; for
k = 0 it raises ValueError (k must be positive); for k ≥ order it emits a
RuntimeWarning that it would fall back to the dense solver, and then
raises TypeError because a sparse matrix cannot be handed to
scipy.linalg.eigh (ARPACK itself cannot compute all eigenpairs). -/
def eigsh_sparse (m k : Nat) : Except PyErr Nat :=
  if m ≤ k then .error .typeError
  else if k = 0 then .error .valueError
  else .ok k

/-- Control-flow embedding of `compute_spectrum` on a sparse Laplacian of
order m: clip the request, then hand it to eigsh, propagating the eigsh
domain error.  On success the value is the number of eigenpairs
returned. -/
def compute_spectrum_run (m : Nat) (n_eigenpairs : Option Nat) :
    Except PyErr Nat :=
  eigsh_sparse m (compute_spectrum_k m n_eigenpairs)

/-- Embedding of the eigenvector post-processing of `compute_spectrum`:
`evecs / math.sqrt(len(evecs))`.  The irrational scalar sqrt(n) is passed
as a parameter s, constrained by `s^2 = n` in the theorems. -/
def normalize_evecs (s : ℚ) (V : Nat → Nat → ℚ) : Nat → Nat → ℚ :=
  fun i j => V i j / s

/-- Sum over all n vertices of the squared entries of column j. -/
def colSq (n : Nat) (V : Nat → Nat → ℚ) (j : Nat) : ℚ :=
  ∑ i in Finset.range n, (V i j) ^ 2

/-! ## Diffusion (scalar_diffusion, vector_diffusion)

Matrices are unbundled: an entry function `Nat → Nat → ℚ` together with
explicitly tracked sizes.  The dense matrix exponential scipy.linalg.expm
is an external routine and enters as an oracle parameter `expm`. -/

/-- The operator argument of `scalar_diffusion`: either a (sparse) square
matrix of recorded order, or an (eigenvalues, eigenvectors) pair. -/
inductive DiffOp where
  | mat : Nat → (Nat → Nat → ℚ) → DiffOp
  | pair : List ℚ → (Nat → Nat → ℚ) → DiffOp

/-- Matrix product with inner dimension n. -/
def mmul (n : Nat) (A B : Nat → Nat → ℚ) : Nat → Nat → ℚ :=
  fun i j => ∑ k in Finset.range n, A i k * B k j

/-- Identity matrix entry function. -/
def idm : Nat → Nat → ℚ :=
  fun i j => if i = j then 1 else 0

/-- Scalar multiple of a matrix entry function. -/
def matScale (c : ℚ) (A : Nat → Nat → ℚ) : Nat → Nat → ℚ :=
  fun i j => c * A i j

/-- Embedding of `scalar_diffusion(x, t, method, par)` for a 2-d input x.
The spectral branch always fails: the source calls `np.mm`, and numpy has
no attribute mm, so every spectral call raises AttributeError before any
arithmetic.  The matrix_exp branch with a pair operand fails at
`par.todense()` (tuples have no todense).  Unknown methods raise
NotImplementedError. -/
def scalar_diffusion (expm : (Nat → Nat → ℚ) → (Nat → Nat → ℚ))
    (x : Nat → Nat → ℚ) (t : ℚ) (method : String) (par : DiffOp) :
    Except PyErr (Nat → Nat → ℚ) :=
  if method = "matrix_exp" then
    match par with
    | .mat nd M => .ok (mmul nd (expm (matScale (-t) M)) x)
    | .pair _ _ => .error .attributeError
  else if method = "spectral" then
    match par with
    | .mat _ _ => .error .assertionError
    | .pair _ _ => .error .attributeError
  else .error .notImplementedError

/-- Row-major reshape of a matrix with oldc columns into one with newc
columns: entry (i,j) of the result is entry (f / oldc, f % oldc) of the
input, where f = i·newc + j is the flat index. -/
def reshapeM (oldc newc : Nat) (x : Nat → Nat → ℚ) : Nat → Nat → ℚ :=
  fun i j => x ((i * newc + j) / oldc) ((i * newc + j) % oldc)

/-- The all-ones n×1 column `np.ones([n,1])`. -/
def onesCol : Nat → Nat → ℚ :=
  fun _ _ => 1

/-- Embedding of `vector_diffusion(x, t, Lc, L, method, normalise)` for an
n×d input x.  `vnorm d y` is the external `np.linalg.norm(y, axis=-1,
keepdims=True)` (an oracle, since row norms are irrational): the n×1
column of row norms of the n×d matrix y.  Control flow follows the source:
the blocked dimension nd is read off the operator (raising TypeError when
the spectral method receives a matrix, since len(sparse) raises, and
AttributeError when matrix_exp receives a pair, since tuples have no
shape); then the divisibility assert runs; then the connection diffusion;
and only then, when normalise is set, the assert that L was supplied. -/
def vector_diffusion (expm : (Nat → Nat → ℚ) → (Nat → Nat → ℚ))
    (vnorm : Nat → (Nat → Nat → ℚ) → (Nat → Nat → ℚ))
    (n d : Nat) (x : Nat → Nat → ℚ) (t : ℚ) (Lc : DiffOp) (L : Option DiffOp)
    (method : String) (normalise : Bool) :
    Except PyErr (Nat → Nat → ℚ) :=
  let ndE : Except PyErr Nat :=
    if method = "spectral" then
      match Lc with
      | .mat _ _ => .error .typeError
      | .pair evals _ => .ok evals.length
    else
      match Lc with
      | .mat m _ => .ok m
      | .pair _ _ => .error .attributeError
  match ndE with
  | .error e => .error e
  | .ok nd =>
    if n * d % nd = 0 then
      match scalar_diffusion expm (reshapeM d (n * d / nd) x) t method Lc with
      | .error e => .error e
      | .ok out =>
        let out2 := reshapeM (n * d / nd) d out
        if normalise then
          match L with
          | none => .error .assertionError
          | some Lop =>
            match scalar_diffusion expm (vnorm d x) t method Lop with
            | .error e => .error e
            | .ok out_abs =>
              match scalar_diffusion expm onesCol t method Lop with
              | .error e => .error e
              | .ok ind =>
                -- out*out_abs/(ind*norm(out)); rational division stands in
                -- for float division (no claim depends on these values)
                .ok (fun i j =>
                  out2 i j * out_abs i 0 / (ind i 0 * vnorm d out2 i 0))
        else
          .ok out2
    else
      .error .assertionError

/-! ## Sampling (furthest_point_sampling)

The pairwise Euclidean distance matrix is produced by the external
sklearn routine pairwise_distances, which enters as an oracle parameter
`pdist`; its documented contract (an n×n matrix for n input points) is a
hypothesis of the theorems. -/

/-- Tail of numpy argmax: first index attaining the maximum.  A strictly
greater value is required to displace the current best, so the first
occurrence wins. -/
def argmaxAux : List ℚ → Nat → Nat → ℚ → Nat
  | [], _, bi, _ => bi
  | a :: l, i, bi, bv =>
      if bv < a then argmaxAux l (i + 1) i a else argmaxAux l (i + 1) bi bv

/-- numpy argmax: first index of the maximum; empty input raises
ValueError (modelled as none). -/
def argmaxFirst : List ℚ → Option Nat
  | [] => none
  | a :: l => some (argmaxAux l 1 0 a)

/-- numpy max over a list of entries; empty input raises ValueError
(modelled as none). -/
def listMax : List ℚ → Option ℚ
  | [] => none
  | a :: l => some (l.foldl max a)

/-- One run of the sampling loop `for i in range(1, n)` of
`furthest_point_sampling`, iterating over the remaining loop indices and
carrying (perm, lambdas, ds).  The early-break test divides by the
diameter; in floats a zero diameter makes that quotient nan and the
comparison false, hence the `diam ≠ 0` guard. -/
def fpsLoop (D : List (List ℚ)) (Nopt : Option Nat) (stop_crit diam : ℚ) :
    List Nat → List Nat → List ℚ → List ℚ →
    Except PyErr (List Nat × List ℚ)
  | [], perm, lambdas, _ => .ok (perm, lambdas)
  | i :: rest, perm, lambdas, ds =>
    match argmaxFirst ds with
    | none => .error .valueError
    | some idx =>
      let perm' := perm.set i idx
      let lam := ds.getD idx 0
      let lambdas' := lambdas.set i lam
      match D.get? idx with
      | none => .error .indexError
      | some row =>
        let ds' := List.zipWith min ds row
        if Nopt = none ∧ diam ≠ 0 ∧ lam / diam < stop_crit then
          .ok (perm'.take i, lambdas'.take i)
        else
          fpsLoop D Nopt stop_crit diam rest perm' lambdas' ds'

/-- Embedding of `furthest_point_sampling(x, N, stop_crit, start_idx)`.
With stop_crit 0 it returns all indices and no distances.  Otherwise it
computes the distance matrix, its maximum (diam), overwrites the supplied
start index with the constant 5, seeds perm[0] with it (IndexError when
the perm array is empty), reads row 5 of D (IndexError when D has at most
5 rows), and runs the greedy loop. -/
def furthest_point_sampling (pdist : List (List ℚ) → List (List ℚ))
    (x : List (List ℚ)) (Nopt : Option Nat) (stop_crit : ℚ) (start_idx : Nat) :
    Except PyErr (List Nat × Option (List ℚ)) :=
  if stop_crit = 0 then .ok (List.range x.length, none)
  else
    let D := pdist x
    let n := Nopt.getD D.length
    match listMax D.flatten with
    | none => .error .valueError
    | some diam =>
      let start := 5
      if n = 0 then .error .indexError
      else
        let perm := (List.replicate n 0).set 0 start
        let lambdas := List.replicate n (0 : ℚ)
        match D.get? start with
        | none => .error .indexError
        | some ds =>
          match fpsLoop D Nopt stop_crit diam (List.range' 1 (n - 1))
              perm lambdas ds with
          | .error e => .error e
          | .ok (p, l) => .ok (p, some l)

/-! ## Graph builder (manifold_graph) -/

/-- A networkx graph as produced by from_scipy_sparse_array or
from_numpy_array on an n×n matrix: nodes 0..numNodes-1, weighted
adjacency, and a position attribute per node. -/
structure NXGraph where
  numNodes : Nat
  adjW : Nat → Nat → ℚ
  pos : Nat → List ℚ

/-- Embedding of `manifold_graph(X, typ, n_neighbors)`.  External
routines enter as oracles: `knn X k` is sklearn kneighbors_graph (an
n×n connectivity matrix for n points), `pdist X` is sklearn
pairwise_distances, and `gexp` is the float exponential used by the
Gaussian affinity kernel with sigma = 1/10.  For any typ other than knn
or affinity no branch assigns G, and the node-attribute comprehension
raises UnboundLocalError (a NameError). -/
def manifold_graph (knn : List (List ℚ) → Nat → List (List ℚ))
    (pdist : List (List ℚ) → List (List ℚ)) (gexp : ℚ → ℚ)
    (X : List (List ℚ)) (typ : String) (n_neighbors : Nat) :
    Except PyErr NXGraph :=
  let Gopt : Option NXGraph :=
    if typ = "knn" then
      let A := knn X n_neighbors
      -- A += sparse.eye(A.shape[0]); G = nx.from_scipy_sparse_array(A)
      some { numNodes := A.length
             adjW := fun i j =>
               (A.getD i []).getD j 0 + (if i = j then 1 else 0)
             pos := fun _ => [] }
    else if typ = "affinity" then
      let P := pdist X
      -- A = np.exp(-P**2 / (2*sigma**2)); G = nx.from_numpy_array(A)
      some { numNodes := P.length
             adjW := fun i j =>
               gexp (-((P.getD i []).getD j 0) ^ 2 / (2 * (1 / 10) ^ 2))
             pos := fun _ => [] }
    else none
  match Gopt with
  | none => .error .nameError
  | some G =>
      -- node_attribute = \x7bi: X[i] for i in G.nodes\x7d raises IndexError
      -- when some node index has no point
      if G.numNodes ≤ X.length then
        .ok { G with pos := fun i => X.getD i [] }
      else
        .error .indexError

/-! ## Concrete instances used by the theorems -/

/-- The path graph 0 - 1 - 2 with unit weights. -/
def pathGraph3 : Graph :=
  { n := 3
    w := fun i j =>
      if (i = 0 ∧ j = 1) ∨ (i = 1 ∧ j = 0) ∨ (i = 1 ∧ j = 2) ∨ (i = 2 ∧ j = 1)
      then 1 else 0 }

/-- Three nodes, a single edge between 0 and 1, node 2 isolated. -/
def isoGraph3 : Graph :=
  { n := 3
    w := fun i j => if (i = 0 ∧ j = 1) ∨ (i = 1 ∧ j = 0) then 1 else 0 }

/-- A single node with no edges. -/
def singletonGraph : Graph :=
  { n := 1, w := fun _ _ => 0 }

/-- Two nodes joined by a unit-weight edge. -/
def twoNodeGraph : Graph :=
  { n := 2, w := fun i j => if (i = 0 ∧ j = 1) ∨ (i = 1 ∧ j = 0) then 1 else 0 }

/-- A 4×4 transport matrix for `twoNodeGraph` with block dimension 2:
identity diagonal blocks, and a rotation by a quarter turn (and its
inverse) on the edge blocks. -/
def rotR : Nat → Nat → ℚ := fun a b =>
  if a = b ∧ a < 4 then 1
  else if (a = 0 ∧ b = 3) ∨ (a = 3 ∧ b = 0) then -1
  else if (a = 1 ∧ b = 2) ∨ (a = 2 ∧ b = 1) then 1
  else 0

/-- The all-zero distance oracle: an n×n matrix of zeros for n points.  It
satisfies the shape contract of sklearn pairwise_distances. -/
def zeroPdist : List (List ℚ) → List (List ℚ) :=
  fun y => y.map (fun _ => y.map (fun _ => (0 : ℚ)))

/-- A k-nearest-neighbour oracle returning the all-zero connectivity
matrix of the right shape. -/
def knnZero : List (List ℚ) → Nat → List (List ℚ) :=
  fun y _ => zeroPdist y

/-- Six sample points. -/
def sixPoints : List (List ℚ) :=
  [[0], [0], [0], [0], [0], [0]]

/-- Three sample points. -/
def threePoints : List (List ℚ) :=
  [[0], [0], [0]]

/-- The 1×1 identity as a transport matrix for `singletonGraph` with block
dimension 1: the diagonal block R(0,0) is the identity, as the data-model
invariant requires. -/
def singletonR : Nat → Nat → ℚ :=
  fun a b => if a = 0 ∧ b = 0 then 1 else 0

/-! ## Claim theorems -/

/-- Entries of row 0 of the rw-normalized Laplacian of the path graph. -/
theorem pathGraph3_rw_entries :
    compute_laplacian_rw pathGraph3 0 0 = some 1 ∧
    compute_laplacian_rw pathGraph3 0 1 = some (-(1 / 2)) ∧
    compute_laplacian_rw pathGraph3 0 2 = some 0 := by
  have h0 : pathGraph3.degree 0 = 1 := by decide
  have h1 : pathGraph3.degree 1 = 2 := by decide
  have h2 : pathGraph3.degree 2 = 1 := by decide
  refine ⟨?_, ?_, ?_⟩ <;>
    · simp only [compute_laplacian_rw, fdiv, h0, h1, h2]
      norm_num [compute_laplacian, Graph.adjRowSum, pathGraph3, Finset.sum_range_succ]

/-- Row 0 of the rw-normalized Laplacian of the path graph, evaluated. -/
theorem rwRow_pathGraph3_eval :
    rwRow pathGraph3 0 = [some 1, some (-(1 / 2)), some 0] := by
  have hr : List.range 3 = [0, 1, 2] := by decide
  simp only [rwRow]
  rw [show pathGraph3.n = 3 from rfl, hr]
  simp only [List.map_cons, List.map_nil, pathGraph3_rw_entries.1,
    pathGraph3_rw_entries.2.1, pathGraph3_rw_entries.2.2]

/-- C2: the unnormalized `compute_laplacian` rows do sum to zero; but the
"rw" branch divides entry (i,j) by the degree of node j (numpy broadcasts
the degree vector over the last axis), i.e. it scales columns, not rows,
so the normalized rows need not sum to zero: on the path graph 0-1-2 the
first normalized row sums to 1/2. -/
theorem compute_laplacian_rw_row_sum_not_zero :
    (∀ (G : Graph) (i : Nat), i < G.n →
      ∑ j in Finset.range G.n, compute_laplacian G i j = 0) ∧
    optSum (rwRow pathGraph3 0) = some (1 / 2) ∧ ((1 : ℚ) / 2 ≠ 0) := by
  refine ⟨?_, ?_, by norm_num⟩
  · intro G i hi
    unfold compute_laplacian
    rw [Finset.sum_sub_distrib, Finset.sum_ite_eq]
    simp [Finset.mem_range.mpr hi, Graph.adjRowSum]
  · rw [rwRow_pathGraph3_eval]
    simp only [optSum]
    norm_num

/-- C2 witness: the general row-sum statement applied to the path graph. -/
theorem compute_laplacian_rw_row_sum_not_zero_witness :
    0 < pathGraph3.n ∧
    (∑ j in Finset.range pathGraph3.n, compute_laplacian pathGraph3 0 j = 0) ∧
    optSum (rwRow pathGraph3 0) = some (1 / 2) := by
  exact ⟨by decide, compute_laplacian_rw_row_sum_not_zero.1 pathGraph3 0 (by decide),
    compute_laplacian_rw_row_sum_not_zero.2.1⟩

/-- C5: on a graph with an isolated node (node 2 of `isoGraph3`), the "rw"
branch of `compute_laplacian` divides the zero entry (2,2) by the zero
degree of node 2, a float 0/0 that is nan, not zero — the degree-0 row
contains a non-finite entry.  The "rw" branch of
`compute_connection_laplacian`, by contrast, guards the inverse degree
(inf is replaced by 0) and maps the whole block-row of the isolated node
to exact zeros, for every transport matrix R. -/
theorem compute_laplacian_rw_isolated_nan :
    isoGraph3.degree 2 = 0 ∧
    compute_laplacian_rw isoGraph3 2 2 = none ∧
    ∀ (R : Nat → Nat → ℚ) (b : Nat),
      compute_connection_laplacian_rw isoGraph3 1 R 2 b = 0 := by
  refine ⟨by decide, ?_, ?_⟩
  · have h2 : isoGraph3.degree 2 = 0 := by decide
    simp [compute_laplacian_rw, h2, fdiv]
  · intro R b
    have hg : degInvGuard isoGraph3 (2 / 1) = 0 := by
      norm_num [degInvGuard]
      decide
    simp [compute_connection_laplacian_rw, hg]

/-- The diagonal Laplacian entry of an in-range node is its weighted
degree: the sum of the weights of its edges to other nodes (self loops
cancel between D and A). -/
theorem compute_laplacian_diag (G : Graph) (i : Nat) (hi : i < G.n) :
    compute_laplacian G i i = ∑ j in (Finset.range G.n).erase i, G.w i j := by
  unfold compute_laplacian Graph.adjRowSum
  rw [if_pos rfl, ← Finset.sum_erase_add (Finset.range G.n) _ (Finset.mem_range.mpr hi)]
  ring

/-- Auxiliary index reduction for the Kronecker block structure. -/
theorem kron_block_index (d : Nat) (hd : 0 < d) (i a : Nat) (ha : a < d) :
    (i * d + a) / d = i := by
  rw [mul_comm, Nat.mul_add_div hd, Nat.div_eq_of_lt ha, Nat.add_zero]

/-- C1 counterexample: on the one-node graph with no edges (block
dimension 1, transport matrix with the required identity diagonal block),
the diagonal block (0,0) of the connection Laplacian is zero, so the
nonzero block pattern does not include the diagonal and therefore does
not equal the edge set plus the diagonal. -/
theorem ccl_pattern_counterexample :
    singletonR 0 0 = 1 ∧
    ¬ blockNonzero singletonGraph 1 singletonR 0 0 := by
  constructor
  · rfl
  · intro h
    obtain ⟨a, ha, b, hb, hne⟩ := h
    simp only [Finset.mem_range, Nat.lt_one_iff] at ha hb
    subst ha; subst hb
    apply hne
    norm_num [compute_connection_laplacian, kronOnes, compute_laplacian,
      Graph.adjRowSum, singletonGraph, singletonR]

/-- C1 (amended): for every graph and block-structured transport matrix R
with identity diagonal blocks, nonnegative weights, and a nonzero entry in
every edge block, the unnormalized connection Laplacian is the Hadamard
product of the Kronecker-expanded scalar Laplacian with R: every cell of
block (i,j) equals L(i,j)·R at that cell; the nonzero block pattern is
exactly the edge set together with the diagonal positions of nodes that
have at least one incident edge to another node; and each diagonal block
is the weighted degree times the identity transport. -/
theorem ccl_block_structure (G : Graph) (d : Nat) (R : Nat → Nat → ℚ)
    (hd : 0 < d)
    (hdiag : ∀ i ∈ Finset.range G.n, ∀ a ∈ Finset.range d, ∀ b ∈ Finset.range d,
      R (i * d + a) (i * d + b) = if a = b then 1 else 0)
    (hedge : ∀ i ∈ Finset.range G.n, ∀ j ∈ Finset.range G.n, i ≠ j → G.w i j ≠ 0 →
      ∃ a ∈ Finset.range d, ∃ b ∈ Finset.range d, R (i * d + a) (j * d + b) ≠ 0)
    (hw : ∀ i ∈ Finset.range G.n, ∀ j ∈ Finset.range G.n, 0 ≤ G.w i j) :
    (∀ i j a b, a < d → b < d →
      compute_connection_laplacian G d R (i * d + a) (j * d + b) =
        compute_laplacian G i j * R (i * d + a) (j * d + b)) ∧
    (∀ i ∈ Finset.range G.n, ∀ j ∈ Finset.range G.n,
      (blockNonzero G d R i j ↔
        (i ≠ j ∧ G.w i j ≠ 0) ∨ (i = j ∧ G.hasNeighbor i))) ∧
    (∀ i ∈ Finset.range G.n, ∀ a ∈ Finset.range d, ∀ b ∈ Finset.range d,
      compute_connection_laplacian G d R (i * d + a) (i * d + b) =
        (∑ j in (Finset.range G.n).erase i, G.w i j) * (if a = b then 1 else 0)) := by
  have hblock : ∀ i j a b, a < d → b < d →
      compute_connection_laplacian G d R (i * d + a) (j * d + b) =
        compute_laplacian G i j * R (i * d + a) (j * d + b) := by
    intro i j a b ha hb
    unfold compute_connection_laplacian kronOnes
    rw [kron_block_index d hd i a ha, kron_block_index d hd j b hb]
  refine ⟨hblock, ?_, ?_⟩
  · intro i hi j hj
    constructor
    · rintro ⟨a, ha, b, hb, hne⟩
      rw [Finset.mem_range] at ha hb
      rw [hblock i j a b ha hb] at hne
      rcases mul_ne_zero_iff.mp hne with ⟨hL, -⟩
      by_cases hij : i = j
      · subst hij
        right
        refine ⟨rfl, ?_⟩
        rw [compute_laplacian_diag G i (Finset.mem_range.mp hi)] at hL
        by_contra hno
        apply hL
        apply Finset.sum_eq_zero
        intro k hk
        rcases Finset.mem_erase.mp hk with ⟨hki, hkr⟩
        by_contra hwk
        exact hno ⟨k, hkr, hki, hwk⟩
      · left
        refine ⟨hij, ?_⟩
        intro hwij
        apply hL
        unfold compute_laplacian
        rw [if_neg hij, hwij, sub_zero]
    · rintro (⟨hij, hwij⟩ | ⟨hij, k, hkr, hki, hwk⟩)
      · obtain ⟨a, ha, b, hb, hR⟩ := hedge i hi j hj hij hwij
        refine ⟨a, ha, b, hb, ?_⟩
        rw [hblock i j a b (Finset.mem_range.mp ha) (Finset.mem_range.mp hb)]
        apply mul_ne_zero _ hR
        unfold compute_laplacian
        rw [if_neg hij]
        simpa using hwij
      · subst hij
        refine ⟨0, Finset.mem_range.mpr hd, 0, Finset.mem_range.mpr hd, ?_⟩
        rw [hblock i i 0 0 hd hd]
        have hRd := hdiag i hi 0 (Finset.mem_range.mpr hd) 0 (Finset.mem_range.mpr hd)
        rw [hRd, if_pos rfl, mul_one, compute_laplacian_diag G i (Finset.mem_range.mp hi)]
        have hpos : 0 < ∑ j in (Finset.range G.n).erase i, G.w i j := by
          apply Finset.sum_pos'
          · intro m hm
            exact hw i hi m (Finset.mem_of_mem_erase hm)
          · refine ⟨k, Finset.mem_erase.mpr ⟨hki, hkr⟩, ?_⟩
            exact lt_of_le_of_ne (hw i hi k hkr) (Ne.symm hwk)
        exact ne_of_gt hpos
  · intro i hi a ha b hb
    rw [hblock i i a b (Finset.mem_range.mp ha) (Finset.mem_range.mp hb),
      hdiag i hi a ha b hb, compute_laplacian_diag G i (Finset.mem_range.mp hi)]

/-- C1 witness: the block-structure theorem applied to the two-node graph
with block dimension 2 and the rotation transport `rotR`. -/
theorem ccl_block_structure_witness :
    blockNonzero twoNodeGraph 2 rotR 0 1 ∧
    compute_connection_laplacian twoNodeGraph 2 rotR (0 * 2 + 0) (1 * 2 + 1) =
      compute_laplacian twoNodeGraph 0 1 * rotR (0 * 2 + 0) (1 * 2 + 1) := by
  have h := ccl_block_structure twoNodeGraph 2 rotR (by decide) (by decide)
    (by decide) (by decide)
  exact ⟨(h.2.1 0 (by decide) 1 (by decide)).mpr (Or.inl ⟨by decide, by decide⟩),
    h.1 0 1 0 1 (by decide) (by decide)⟩

/-- C3 counterexample: a legitimate orthonormal eigensolver output (the
standard basis column on 4 vertices, squared column sum 1) scaled by
1/sqrt(4) = 1/2, as `compute_spectrum` does, has squared column sum 1/4,
not 1. -/
theorem normalize_evecs_colSq_counterexample :
    ((2 : ℚ) ^ 2 = ((4 : ℕ) : ℚ)) ∧
    colSq 4 (fun i j => if i = 0 ∧ j = 0 then (1 : ℚ) else 0) 0 = 1 ∧
    colSq 4 (normalize_evecs 2 (fun i j => if i = 0 ∧ j = 0 then (1 : ℚ) else 0)) 0
      = 1 / 4 ∧
    ((1 : ℚ) / 4 ≠ 1) := by
  refine ⟨by norm_num, ?_, ?_, by norm_num⟩
  · norm_num [colSq, Finset.sum_range_succ]
  · norm_num [colSq, normalize_evecs, Finset.sum_range_succ]

/-- C3 (amended): scaling the raw eigenvector matrix by 1/sqrt(n), where n
is the number of rows, turns a column of squared sum 1 (the eigensolver
contract) into a column of squared sum 1/n — not 1. -/
theorem normalize_evecs_colSq (n : Nat) (s : ℚ) (V : Nat → Nat → ℚ) (j : Nat)
    (hs : s ≠ 0) (hsn : s ^ 2 = (n : ℚ)) (hV : colSq n V j = 1) :
    colSq n (normalize_evecs s V) j = 1 / (n : ℚ) := by
  unfold colSq normalize_evecs at *
  simp only [div_pow]
  rw [← Finset.sum_div, hV, hsn]

/-- C3 witness: the amended scaling statement at n = 1, s = 1 and the
all-ones column. -/
theorem normalize_evecs_colSq_witness :
    ((1 : ℚ) ≠ 0) ∧ ((1 : ℚ) ^ 2 = ((1 : ℕ) : ℚ)) ∧
    colSq 1 (fun _ _ => (1 : ℚ)) 0 = 1 ∧
    colSq 1 (normalize_evecs 1 (fun _ _ => (1 : ℚ))) 0 = 1 / ((1 : ℕ) : ℚ) := by
  have hV : colSq 1 (fun _ _ => (1 : ℚ)) 0 = 1 := by
    simp [colSq]
  exact ⟨by decide, by simp, hV,
    normalize_evecs_colSq 1 1 (fun _ _ => (1 : ℚ)) 0 (by decide) (by simp) hV⟩

/-- C4 counterexample: `scalar_diffusion` with t = 0 and the spectral
method does not return its input: it raises AttributeError on every call
(the source refers to np.mm, which numpy does not define), here shown on
a concrete one-entry input. -/
theorem scalar_diffusion_spectral_t0_counterexample :
    scalar_diffusion (fun M => M) (fun _ _ => (1 : ℚ)) 0 "spectral"
        (.pair [0] (fun _ _ => 1)) = .error .attributeError ∧
    (Except.error PyErr.attributeError ≠
      (Except.ok (fun _ _ => (1 : ℚ)) : Except PyErr (Nat → Nat → ℚ))) := by
  exact ⟨rfl, by simp⟩

/-- C4 (amended): with t = 0, the matrix_exp method returns its input
unchanged (given the matrix-exponential contract that the exponential of
the zero matrix is the identity); the spectral method never returns the
input: it fails with AttributeError on every input because the source
calls the nonexistent np.mm. -/
theorem scalar_diffusion_t0 :
    (∀ (expm : (Nat → Nat → ℚ) → Nat → Nat → ℚ) (x M : Nat → Nat → ℚ) (nd : Nat),
      expm (fun _ _ => (0 : ℚ)) = idm →
      ∃ y, scalar_diffusion expm x 0 "matrix_exp" (.mat nd M) = .ok y ∧
        ∀ i, i < nd → ∀ j, y i j = x i j) ∧
    (∀ (expm : (Nat → Nat → ℚ) → Nat → Nat → ℚ) (x : Nat → Nat → ℚ) (t : ℚ)
      (evals : List ℚ) (evecs : Nat → Nat → ℚ),
      scalar_diffusion expm x t "spectral" (.pair evals evecs) =
        .error .attributeError) := by
  constructor
  · intro expm x M nd hexp
    have hz : matScale (-(0 : ℚ)) M = fun _ _ => (0 : ℚ) := by
      funext i j
      simp [matScale]
    refine ⟨mmul nd (expm (matScale (-(0 : ℚ)) M)) x, rfl, ?_⟩
    intro i hi j
    rw [hz, hexp]
    simp only [mmul, idm, ite_mul, one_mul, zero_mul]
    rw [Finset.sum_ite_eq]
    exact if_pos (Finset.mem_range.mpr hi)
  · intro expm x t evals evecs
    rfl

/-- C4 witness: the t = 0 statement at a one-entry input with the trivial
exponential oracle. -/
theorem scalar_diffusion_t0_witness :
    ((fun (_ : Nat → Nat → ℚ) => idm) (fun _ _ => (0 : ℚ)) = idm) ∧
    (∃ y, scalar_diffusion (fun _ => idm) (fun _ _ => (1 : ℚ)) 0 "matrix_exp"
        (.mat 1 (fun _ _ => 0)) = .ok y ∧
      ∀ i, i < 1 → ∀ j, y i j = (fun _ _ => (1 : ℚ)) i j) ∧
    scalar_diffusion (fun _ => idm) (fun _ _ => (1 : ℚ)) 0 "spectral"
        (.pair [0] (fun _ _ => 0)) = .error .attributeError :=
  ⟨rfl, scalar_diffusion_t0.1 (fun _ => idm) (fun _ _ => (1 : ℚ)) (fun _ _ => 0) 1 rfl,
    scalar_diffusion_t0.2 (fun _ => idm) (fun _ _ => (1 : ℚ)) 0 [0] (fun _ _ => 0)⟩

/-- C7 counterexample: with the spectral method, normalise set, and no
scalar Laplacian supplied, `vector_diffusion` does not raise the
missing-operator assertion before diffusing: the connection-diffusion step
runs first and its own failure (AttributeError from np.mm) is what
surfaces, not the AssertionError of the missing-L check. -/
theorem vector_diffusion_missing_L_counterexample :
    vector_diffusion (fun _ => idm) (fun _ _ => onesCol) 1 1 (fun _ _ => (1 : ℚ)) 0
        (.pair [0] (fun _ _ => 0)) none "spectral" true = .error .attributeError ∧
    (PyErr.attributeError ≠ PyErr.assertionError) := by
  exact ⟨rfl, by simp⟩

/-- C7 (amended): the divisibility check of `vector_diffusion` is a true
precondition, raised before anything else runs (for every oracle and every
later argument); the missing-scalar-Laplacian check under normalise also
raises AssertionError and no output is produced, but it fires only after
the connection-diffusion step (with matrix_exp, whose diffusion step
cannot fail, the missing-L AssertionError is the result). -/
theorem vector_diffusion_assert_order
    (expm : (Nat → Nat → ℚ) → Nat → Nat → ℚ)
    (vnorm : Nat → (Nat → Nat → ℚ) → Nat → Nat → ℚ)
    (n d : Nat) (x : Nat → Nat → ℚ) (t : ℚ) :
    (∀ (m : Nat) (M : Nat → Nat → ℚ) (L : Option DiffOp) (normalise : Bool),
      n * d % m ≠ 0 →
      vector_diffusion expm vnorm n d x t (.mat m M) L "matrix_exp" normalise =
        .error .assertionError) ∧
    (∀ (evals : List ℚ) (evecs : Nat → Nat → ℚ) (L : Option DiffOp)
      (normalise : Bool),
      n * d % evals.length ≠ 0 →
      vector_diffusion expm vnorm n d x t (.pair evals evecs) L "spectral" normalise =
        .error .assertionError) ∧
    (∀ (m : Nat) (M : Nat → Nat → ℚ),
      n * d % m = 0 →
      vector_diffusion expm vnorm n d x t (.mat m M) none "matrix_exp" true =
        .error .assertionError) := by
  refine ⟨?_, ?_, ?_⟩
  · intro m M L normalise h
    simp [vector_diffusion, Except.bind, h]
  · intro evals evecs L normalise h
    simp [vector_diffusion, Except.bind, h]
  · intro m M h
    simp [vector_diffusion, scalar_diffusion, Except.bind, h]

/-- C7 witness: the assertion-order statement at concrete sizes: a 1×1
field against a blocked dimension 2 (mismatch) and against a blocked
dimension 1 with normalise set and no scalar Laplacian. -/
theorem vector_diffusion_assert_order_witness :
    (1 * 1 % 2 ≠ 0) ∧
    vector_diffusion (fun _ => idm) (fun _ _ => onesCol) 1 1 (fun _ _ => (1 : ℚ)) 0
        (.mat 2 (fun _ _ => 0)) none "matrix_exp" false = .error .assertionError ∧
    (1 * 1 % 1 = 0) ∧
    vector_diffusion (fun _ => idm) (fun _ _ => onesCol) 1 1 (fun _ _ => (1 : ℚ)) 0
        (.mat 1 (fun _ _ => 0)) none "matrix_exp" true = .error .assertionError := by
  have h := vector_diffusion_assert_order (fun _ => idm) (fun _ _ => onesCol)
    1 1 (fun _ _ => (1 : ℚ)) 0
  exact ⟨by decide, h.1 2 (fun _ _ => 0) none false (by decide), by decide,
    h.2.2 1 (fun _ _ => 0) (by decide)⟩

/-- The sampling loop never touches slot 0 of perm: every loop index is at
least 1, updates hit index i ≥ 1, and the early-break truncation keeps at
least the first entry. -/
theorem fpsLoop_head (D : List (List ℚ)) (Nopt : Option Nat) (sc diam : ℚ) :
    ∀ (is : List Nat) (perm : List Nat) (lambdas ds : List ℚ),
      (∀ i ∈ is, 1 ≤ i) → perm.get? 0 = some 5 →
      ∀ p l, fpsLoop D Nopt sc diam is perm lambdas ds = .ok (p, l) →
        p.get? 0 = some 5 := by
  intro is
  induction is with
  | nil =>
      intro perm lambdas ds _ hperm p l heq
      simp only [fpsLoop] at heq
      cases heq
      exact hperm
  | cons i rest ih =>
      intro perm lambdas ds hge hperm p l heq
      have hi : 1 ≤ i := hge i (List.mem_cons_self i rest)
      have hne : i ≠ 0 := Nat.one_le_iff_ne_zero.mp hi
      simp only [fpsLoop] at heq
      cases hds : argmaxFirst ds with
      | none => simp only [hds] at heq; exact Except.noConfusion heq
      | some idx =>
        simp only [hds] at heq
        cases hrow : D.get? idx with
        | none => simp only [hrow] at heq; exact Except.noConfusion heq
        | some row =>
          simp only [hrow] at heq
          by_cases hbr : Nopt = none ∧ diam ≠ 0 ∧ ds.getD idx 0 / diam < sc
          · rw [if_pos hbr] at heq
            rw [Except.ok.injEq, Prod.mk.injEq] at heq
            obtain ⟨hp, -⟩ := heq
            rw [← hp, List.get?_take hi, List.get?_set_ne _ _ hne]
            exact hperm
          · rw [if_neg hbr] at heq
            refine ih (perm.set i idx) _ _ (fun m hm => hge m (List.mem_cons_of_mem i hm)) ?_ p l heq
            rw [List.get?_set_ne _ _ hne]
            exact hperm

/-- C8: `furthest_point_sampling` ignores the caller-supplied start index:
for stop_crit ≠ 0, any two values of start_idx give identical index and
distance sequences, and whenever the call succeeds the first selected
index is the internal constant 5. -/
theorem fps_ignores_start_idx (pdist : List (List ℚ) → List (List ℚ))
    (x : List (List ℚ)) (Nopt : Option Nat) (sc : ℚ) (s1 s2 : Nat)
    (hsc : sc ≠ 0) :
    furthest_point_sampling pdist x Nopt sc s1 =
      furthest_point_sampling pdist x Nopt sc s2 ∧
    ∀ p l, furthest_point_sampling pdist x Nopt sc s1 = .ok (p, l) →
      p.get? 0 = some 5 := by
  refine ⟨rfl, ?_⟩
  intro p l heq
  unfold furthest_point_sampling at heq
  simp only [if_neg hsc] at heq
  cases hm : listMax (pdist x).flatten with
  | none => simp only [hm] at heq; exact Except.noConfusion heq
  | some diam =>
    simp only [hm] at heq
    by_cases hn : Nopt.getD (pdist x).length = 0
    · simp only [if_pos hn] at heq; exact Except.noConfusion heq
    · simp only [if_neg hn] at heq
      cases hds : (pdist x).get? 5 with
      | none => simp only [hds] at heq; exact Except.noConfusion heq
      | some ds =>
        simp only [hds] at heq
        cases hloop : fpsLoop (pdist x) Nopt sc diam
            (List.range' 1 (Nopt.getD (pdist x).length - 1))
            ((List.replicate (Nopt.getD (pdist x).length) 0).set 0 5)
            (List.replicate (Nopt.getD (pdist x).length) (0 : ℚ)) ds with
        | error e => simp only [hloop] at heq; exact Except.noConfusion heq
        | ok r =>
          obtain ⟨q, lam⟩ := r
          simp only [hloop] at heq
          rw [Except.ok.injEq, Prod.mk.injEq] at heq
          obtain ⟨hp, -⟩ := heq
          rw [← hp]
          refine fpsLoop_head (pdist x) Nopt sc diam _ _ _ ds
            (fun i hi => (List.mem_range'_1.mp hi).1) ?_ q lam hloop
          rw [List.get?_set_eq_of_lt]
          simp [List.length_replicate, Nat.pos_of_ne_zero hn]

/-- C8 witness: the start-index independence statement at a six-point
input with the all-zero distance oracle, for start indices 0 and 7. -/
theorem fps_ignores_start_idx_witness :
    ((1 : ℚ) ≠ 0) ∧
    furthest_point_sampling zeroPdist sixPoints none 1 0 =
      furthest_point_sampling zeroPdist sixPoints none 1 7 ∧
    (∀ p l, furthest_point_sampling zeroPdist sixPoints none 1 0 = .ok (p, l) →
      p.get? 0 = some 5) := by
  refine ⟨by decide, ?_, ?_⟩
  · exact (fps_ignores_start_idx zeroPdist sixPoints none 1 0 7 (by decide)).1
  · exact (fps_ignores_start_idx zeroPdist sixPoints none 1 0 7 (by decide)).2

/-- A nonempty list has a maximum. -/
theorem listMax_of_ne_nil (l : List ℚ) (h : l ≠ []) : ∃ m, listMax l = some m := by
  cases l with
  | nil => exact absurd rfl h
  | cons a t => exact ⟨t.foldl max a, rfl⟩

/-- C9: with stop_crit ≠ 0 and between 1 and 5 points,
`furthest_point_sampling` raises IndexError: the hardcoded start index 5
is out of range for the n×n distance matrix.  And every successful call
has at least 6 points or stop_crit = 0. -/
theorem fps_small_input (pdist : List (List ℚ) → List (List ℚ))
    (x : List (List ℚ)) (Nopt : Option Nat) (sc : ℚ) (s : Nat)
    (hlen : (pdist x).length = x.length)
    (hrows : ∀ row ∈ pdist x, row.length = x.length) :
    ((1 ≤ x.length ∧ x.length ≤ 5 ∧ sc ≠ 0) →
      furthest_point_sampling pdist x Nopt sc s = .error .indexError) ∧
    (∀ r, furthest_point_sampling pdist x Nopt sc s = .ok r →
      6 ≤ x.length ∨ sc = 0) := by
  have main : (1 ≤ x.length ∧ x.length ≤ 5 ∧ sc ≠ 0) →
      furthest_point_sampling pdist x Nopt sc s = .error .indexError := by
    rintro ⟨h1, h5, hsc⟩
    have hD : pdist x ≠ [] := by
      intro h
      rw [h] at hlen
      simp only [List.length_nil] at hlen
      omega
    obtain ⟨r0, rest, hcons⟩ : ∃ r0 rest, pdist x = r0 :: rest := by
      cases hc : pdist x with
      | nil => exact absurd hc hD
      | cons a t => exact ⟨a, t, rfl⟩
    have hr0 : r0.length = x.length := hrows r0 (hcons ▸ List.mem_cons_self r0 rest)
    have hr0ne : r0 ≠ [] := by
      intro h
      rw [h] at hr0
      simp only [List.length_nil] at hr0
      omega
    have hfne : (pdist x).flatten ≠ [] := by
      rw [hcons]
      cases r0 with
      | nil => exact absurd rfl hr0ne
      | cons a t => simp
    obtain ⟨diam, hdiam⟩ := listMax_of_ne_nil _ hfne
    have hget : (pdist x).get? 5 = none := by
      rw [List.get?_eq_none]
      omega
    unfold furthest_point_sampling
    simp only [if_neg hsc, hdiam, hget]
    by_cases hn : Nopt.getD (pdist x).length = 0
    · rw [if_pos hn]
    · rw [if_neg hn]
  refine ⟨main, ?_⟩
  intro r heq
  by_cases hsc : sc = 0
  · exact Or.inr hsc
  refine Or.inl ?_
  by_contra hlt
  push_neg at hlt
  rcases Nat.eq_zero_or_pos x.length with h0 | h1
  · have hD : pdist x = [] := by
      rw [← List.length_eq_zero, hlen, h0]
    rw [furthest_point_sampling, if_neg hsc] at heq
    simp only [hD, List.flatten_nil, listMax] at heq
    exact Except.noConfusion heq
  · rw [main ⟨h1, by omega, hsc⟩] at heq
    exact Except.noConfusion heq

/-- C9 witness: a three-point input with the all-zero distance oracle and
stop_crit 1 raises IndexError. -/
theorem fps_small_input_witness :
    (1 ≤ threePoints.length ∧ threePoints.length ≤ 5 ∧ (1 : ℚ) ≠ 0) ∧
    furthest_point_sampling zeroPdist threePoints none 1 0 =
      .error .indexError := by
  refine ⟨⟨by decide, by decide, by decide⟩, ?_⟩
  exact (fps_small_input zeroPdist threePoints none 1 0 (by decide)
    (by decide)).1 ⟨by decide, by decide, by decide⟩

/-- C10: `manifold_graph` on any type other than knn or affinity reaches
the node-attribute step with G unassigned and fails with an
unbound-variable error; on the two supported types it returns a graph
whose node set is 0..n-1 for n the number of points (the oracle shape
contracts of kneighbors_graph and pairwise_distances), with each node
carrying its point as the pos attribute. -/
theorem manifold_graph_types (knn : List (List ℚ) → Nat → List (List ℚ))
    (pdist : List (List ℚ) → List (List ℚ)) (gexp : ℚ → ℚ)
    (X : List (List ℚ)) (n_neighbors : Nat)
    (hknn : (knn X n_neighbors).length = X.length)
    (hpd : (pdist X).length = X.length) :
    (∀ typ, typ ≠ "knn" → typ ≠ "affinity" →
      manifold_graph knn pdist gexp X typ n_neighbors = .error .nameError) ∧
    (∀ typ, (typ = "knn" ∨ typ = "affinity") →
      ∃ G, manifold_graph knn pdist gexp X typ n_neighbors = .ok G ∧
        G.numNodes = X.length ∧ ∀ i, i < X.length → G.pos i = X.getD i []) := by
  constructor
  · intro typ h1 h2
    unfold manifold_graph
    simp only [if_neg h1, if_neg h2]
  · rintro typ (h | h) <;> subst h
    · have hle : (knn X n_neighbors).length ≤ X.length := le_of_eq hknn
      refine ⟨{ numNodes := (knn X n_neighbors).length
                adjW := fun i j =>
                  ((knn X n_neighbors).getD i []).getD j 0 + (if i = j then 1 else 0)
                pos := fun i => X.getD i [] }, ?_, hknn, fun i _ => rfl⟩
      simp [manifold_graph, hle]
    · have hle : (pdist X).length ≤ X.length := le_of_eq hpd
      refine ⟨{ numNodes := (pdist X).length
                adjW := fun i j =>
                  gexp (-(((pdist X).getD i []).getD j 0) ^ 2 / (2 * (1 / 10) ^ 2))
                pos := fun i => X.getD i [] }, ?_, hpd, fun i _ => rfl⟩
      simp [manifold_graph, hle]

/-- C10 witness: the type dispatch statement at three concrete points,
the all-zero oracles, and the identity in place of the float exponential. -/
theorem manifold_graph_types_witness :
    ((knnZero threePoints 5).length = threePoints.length) ∧
    ((zeroPdist threePoints).length = threePoints.length) ∧
    manifold_graph knnZero zeroPdist (fun q => q) threePoints "bogus" 5 =
      .error .nameError ∧
    (∃ G, manifold_graph knnZero zeroPdist (fun q => q) threePoints "knn" 5 =
      .ok G ∧ G.numNodes = threePoints.length ∧
      ∀ i, i < threePoints.length → G.pos i = threePoints.getD i []) := by
  refine ⟨by decide, by decide, ?_, ?_⟩
  · exact (manifold_graph_types knnZero zeroPdist (fun q => q) threePoints 5
      (by decide) (by decide)).1 "bogus" (by decide) (by decide)
  · exact (manifold_graph_types knnZero zeroPdist (fun q => q) threePoints 5
      (by decide) (by decide)).2 "knn" (Or.inl rfl)

/-- C6: for a sparse Laplacian of order 3 and an unspecified (or too
large) eigenpair request, `compute_spectrum` clips the request to the
full order 3 and prints its warning, but then hands k = 3 to eigsh, which
requires k < 3 for a sparse matrix and raises (TypeError, after warning
about the impossible dense fallback): the computation does not proceed.
A strictly smaller request succeeds. -/
theorem compute_spectrum_clip_then_eigsh_error :
    compute_spectrum_k 3 none = 3 ∧
    compute_spectrum_warns 3 none = true ∧
    compute_spectrum_run 3 none = .error .typeError ∧
    compute_spectrum_k 3 (some 5) = 3 ∧
    compute_spectrum_run 3 (some 5) = .error .typeError ∧
    compute_spectrum_run 3 (some 2) = .ok 2 := by
  refine ⟨rfl, rfl, rfl, rfl, rfl, rfl⟩

end RVGP
